import Mathlib

/-!
Verification of the advanced-vector container (src/advanced-vector/vector.h):
a shallow embedding of `RawMemory<T>` and `Vector<T>` and proofs about the
operations the specification describes.

Modelling conventions:
* `VecState T` is the observable state of a `Vector<T>`: the capacity of its
  `RawMemory` and the list of live element values (`size_` is the list length).
* `Buf T` models a `RawMemory<T>` region together with which slots currently
  hold live (constructed) objects: slot `some v` is a live object of value `v`,
  slot `none` is raw memory.
* Element types are modelled with value semantics: a successful move or copy
  construction transfers/duplicates the value.  Where a claim is about
  exception behaviour, the fallible constructor is a `T → Except Unit T`.
-/

namespace AdvVector

/-- Observable state of a `Vector<T>` (vector.h lines 102–389): the capacity of
its `RawMemory<T>` member `data_` and the values of the `size_` live elements
`data_[0] .. data_[size_-1]`. -/
structure VecState (T : Type) where
  cap : Nat
  elems : List T
  deriving DecidableEq

/-- A `RawMemory<T>` region (vector.h lines 9–100) together with the
construction state of each slot: `some v` is a live object holding `v`,
`none` is raw (uninitialized) memory.  `RawMemory` itself never constructs or
destroys slots; the `Vector` code does. -/
structure Buf (T : Type) where
  cap : Nat
  slots : List (Option T)
  deriving DecidableEq

namespace Buf

variable {T : Type}

/-- `RawMemory<T>::RawMemory(capacity)` / `Allocate` (lines 15–18, 88–91):
a fresh region of `n` slots, none of them holding a live object. -/
def allocate (T : Type) (n : Nat) : Buf T := ⟨n, List.replicate n none⟩

/-- Write one slot of the region (a placement-`new` when the value is `some`,
a destructor call when it is `none`). -/
def write (b : Buf T) (i : Nat) (v : Option T) : Buf T := ⟨b.cap, b.slots.set i v⟩

/-- Number of live (constructed) objects currently in the region. -/
def liveCount (b : Buf T) : Nat := (b.slots.filterMap id).length

/-- Values of the live objects in the region, in slot order. -/
def liveValues (b : Buf T) : List T := b.slots.filterMap id

/-- `std::destroy_n(base + start, k)`: slots `start, …, start+k-1` stop holding
live objects. -/
def destroyN : Buf T → Nat → Nat → Buf T
  | b, _, 0 => b
  | b, s, k + 1 => destroyN (b.write s none) (s + 1) k

end Buf

/- ### Helper lemmas about `List.set`, `take` and `drop` -/

theorem set_take_of_le {T : Type} (l : List T) (i n : Nat) (a : T) (h : n ≤ i) :
    (l.set i a).take n = l.take n := by
  apply List.ext_getElem
  · simp
  · intro j h1 h2
    have hj : j < n := by rw [List.length_take] at h1; omega
    rw [List.getElem_take, List.getElem_take, List.getElem_set]
    have : i ≠ j := by omega
    simp [this]

theorem set_take_succ_self {T : Type} (l : List T) (i : Nat) (a : T)
    (h : i < l.length) :
    (l.set i a).take (i + 1) = l.take i ++ [a] := by
  apply List.ext_getElem
  · simp; omega
  · intro j h1 h2
    have hj : j < i + 1 := by rw [List.length_take] at h1; omega
    rw [List.getElem_take, List.getElem_set, List.getElem_append]
    rcases Nat.lt_or_ge j i with hji | hji
    · have hne : ¬ (i = j) := by omega
      have hjl : j < (l.take i).length := by rw [List.length_take]; omega
      rw [dif_pos hjl, if_neg hne, List.getElem_take]
    · have hij : i = j := by omega
      have hjl : ¬ (j < (l.take i).length) := by rw [List.length_take]; omega
      rw [dif_neg hjl, if_pos hij]
      have hz : j - (l.take i).length = 0 := by rw [List.length_take]; omega
      simp [hz]

theorem set_drop_of_lt {T : Type} (l : List T) (i n : Nat) (a : T) (h : i < n) :
    (l.set i a).drop n = l.drop n := by
  apply List.ext_getElem
  · simp
  · intro j h1 h2
    rw [List.getElem_drop, List.getElem_drop, List.getElem_set]
    have : ¬ (i = n + j) := by omega
    simp [this]

theorem set_drop_self {T : Type} (l : List T) (i : Nat) (a : T)
    (h : i < l.length) :
    (l.set i a).drop i = a :: l.drop (i + 1) := by
  apply List.ext_getElem
  · simp; omega
  · intro j h1 h2
    rw [List.getElem_drop]
    cases j with
    | zero =>
      rw [List.getElem_set]
      simp
    | succ j =>
      have hj : j < (l.drop (i + 1)).length := by simpa using h2
      simp only [List.getElem_cons_succ]
      rw [List.getElem_set, List.getElem_drop]
      have : ¬ (i = i + (j + 1)) := by omega
      have harith : i + 1 + j = i + (j + 1) := by omega
      simp [this, harith]

theorem filterMap_id_replicate_none {T : Type} (k : Nat) :
    (List.replicate k (none : Option T)).filterMap id = [] := by
  induction k with
  | zero => rfl
  | succ k ih => simp [List.replicate_succ, ih]

theorem filterMap_id_map_some {T : Type} (l : List T) :
    (l.map some).filterMap id = l := by
  rw [List.filterMap_map]
  simp [List.filterMap_some l]

/- ### Relocation primitives -/

/-- `std::uninitialized_move_n(src, n, dst_base + start)` on the
nothrow-move branch: each of the `n` source values is move-constructed into the
next destination slot, starting at `start`.  With value semantics a successful
move transfers the value. -/
def uninitializedMoveN {T : Type} : List T → Buf T → Nat → Buf T
  | [], dst, _ => dst
  | x :: xs, dst, start => uninitializedMoveN xs (dst.write start (some x)) (start + 1)

theorem uninitializedMoveN_slots {T : Type} :
    ∀ (src : List T) (dst : Buf T) (start : Nat),
      start + src.length ≤ dst.slots.length →
      (uninitializedMoveN src dst start).slots =
        dst.slots.take start ++ src.map some ++ dst.slots.drop (start + src.length) := by
  intro src
  induction src with
  | nil =>
    intro dst start h
    simp [uninitializedMoveN, List.take_append_drop]
  | cons x xs ih =>
    intro dst start h
    have hlen : start < dst.slots.length := by simp at h; omega
    rw [uninitializedMoveN, ih]
    · show (dst.slots.set start (some x)).take (start + 1) ++ _ ++
        (dst.slots.set start (some x)).drop (start + 1 + xs.length) = _
      rw [set_take_succ_self dst.slots start (some x) hlen,
          set_drop_of_lt dst.slots start (start + 1 + xs.length) (some x) (by omega)]
      have harith : start + (x :: xs).length = start + 1 + xs.length := by
        simp; omega
      rw [harith]
      simp
    · show start + 1 + xs.length ≤ (dst.slots.set start (some x)).length
      simp at h ⊢
      omega

/-- `Vector::ElementsMigration` (vector.h lines 373–385) in the success model:
the live elements of `data_` are relocated into the region `to` starting at
slot 0 (moved on the nothrow-move branch, copied otherwise — both transfer the
values on success), the originals are destroyed, and the buffers are swapped,
so `data_` ends up as `to`. -/
def elementsMigration {T : Type} (fromElems : List T) (dst : Buf T) : Buf T :=
  uninitializedMoveN fromElems dst 0

/-- Element values of `data_` after `ElementsMigration` into a freshly
allocated region of capacity `newCap` (as in `Reserve`, lines 250–251). -/
def elementsMigrationVals {T : Type} (elems : List T) (newCap : Nat) : List T :=
  (elementsMigration elems (Buf.allocate T newCap)).liveValues

theorem elementsMigrationVals_eq {T : Type} (elems : List T) (newCap : Nat)
    (h : elems.length ≤ newCap) :
    elementsMigrationVals elems newCap = elems := by
  unfold elementsMigrationVals elementsMigration Buf.liveValues
  rw [uninitializedMoveN_slots elems (Buf.allocate T newCap) 0 (by simp [Buf.allocate]; omega)]
  simp only [List.take_zero, List.nil_append, Nat.zero_add, Buf.allocate,
    List.drop_replicate]
  rw [List.filterMap_append, filterMap_id_map_some, filterMap_id_replicate_none]
  simp

/- ### The Vector operations, success/value model -/

/-- `Vector::Reserve` (vector.h lines 244–252): no-op when the requested
capacity does not exceed the current one; otherwise allocate a region of
exactly `newCapacity` slots and migrate all live elements into it. -/
def Reserve {T : Type} (s : VecState T) (newCapacity : Nat) : VecState T :=
  if newCapacity ≤ s.cap then s
  else ⟨newCapacity, elementsMigrationVals s.elems newCapacity⟩

/-- C9: for `n ≤ capacity`, `Reserve n` is a strict no-op (the whole observable
state is unchanged and no new buffer is made); for `n > capacity` the capacity
becomes exactly `n` while the elements (and hence the size) are unchanged. -/
theorem c9_reserve_noop_or_exact_growth {T : Type} (s : VecState T) (n : Nat)
    (hinv : s.elems.length ≤ s.cap) :
    (n ≤ s.cap → Reserve s n = s) ∧
    (s.cap < n → (Reserve s n).cap = n ∧ (Reserve s n).elems = s.elems) := by
  constructor
  · intro h
    simp [Reserve, h]
  · intro h
    have hn : ¬ (n ≤ s.cap) := by omega
    have hlen : s.elems.length ≤ n := by omega
    simp [Reserve, hn, elementsMigrationVals_eq s.elems n hlen]

/-- Witness for C9 at a concrete state. -/
theorem c9_reserve_witness :
    (Reserve (⟨3, [1, 2]⟩ : VecState Nat) 2 = ⟨3, [1, 2]⟩) ∧
    ((Reserve (⟨3, [1, 2]⟩ : VecState Nat) 5).cap = 5 ∧
      (Reserve (⟨3, [1, 2]⟩ : VecState Nat) 5).elems = [1, 2]) :=
  ⟨(c9_reserve_noop_or_exact_growth (⟨3, [1, 2]⟩ : VecState Nat) 2 (by decide)).1
      (by decide),
    (c9_reserve_noop_or_exact_growth (⟨3, [1, 2]⟩ : VecState Nat) 5 (by decide)).2
      (by decide)⟩

/-- Migrating `elems` into a fresh region of capacity `newCap` that already
holds one constructed element at slot `elems.length` (the emplaced element of
the `EmplaceBack` / `Emplace` grow paths) yields the live values
`elems ++ [x]`. -/
theorem elementsMigration_with_emplaced {T : Type} (elems : List T) (x : T)
    (newCap : Nat) (h : elems.length < newCap) :
    (elementsMigration elems
        ((Buf.allocate T newCap).write elems.length (some x))).liveValues =
      elems ++ [x] := by
  unfold elementsMigration Buf.liveValues
  rw [uninitializedMoveN_slots elems _ 0 (by simp [Buf.allocate, Buf.write]; omega)]
  show (((List.replicate newCap none).set elems.length (some x)).take 0 ++
      elems.map some ++
      ((List.replicate newCap none).set elems.length (some x)).drop
        (0 + elems.length)).filterMap id = _
  rw [List.take_zero, List.nil_append, Nat.zero_add,
    set_drop_self (List.replicate newCap none) elems.length (some x) (by simp; omega),
    List.drop_replicate]
  rw [List.filterMap_append]
  rw [filterMap_id_map_some]
  simp [filterMap_id_replicate_none]

/-- `Vector::EmplaceBack` (vector.h lines 282–298) in the success model.  When
`size_ == Capacity()`, a fresh region of capacity `size_ == 0 ? 1 : size_ * 2`
is allocated, the new element is constructed at slot `size_`, and
`ElementsMigration` relocates the old elements and swaps the buffers; otherwise
the element is constructed at `end()`.  Either way `size_` is incremented.
Returns the new state and the index of the returned reference
`data_[size_ - 1]`. -/
def EmplaceBack {T : Type} (s : VecState T) (x : T) : VecState T × Nat :=
  if s.elems.length = s.cap then
    (⟨if s.elems.length = 0 then 1 else s.elems.length * 2,
      (elementsMigration s.elems
        ((Buf.allocate T (if s.elems.length = 0 then 1 else s.elems.length * 2)).write
          s.elems.length (some x))).liveValues⟩,
     s.elems.length)
  else
    (⟨s.cap, s.elems ++ [x]⟩, s.elems.length)

/-- `EmplaceBack` always appends the value, whether or not the vector grows. -/
theorem emplaceBack_elems {T : Type} (s : VecState T) (x : T) :
    (EmplaceBack s x).1.elems = s.elems ++ [x] := by
  unfold EmplaceBack
  by_cases h : s.elems.length = s.cap
  · rw [if_pos h]
    refine elementsMigration_with_emplaced s.elems x _ ?_
    by_cases h0 : s.elems.length = 0
    · rw [if_pos h0, h0]; omega
    · rw [if_neg h0]; omega
  · rw [if_neg h]

/-- C4: appending to a full vector (`size == capacity == c`) grows the
capacity to `2*c` (to `1` when `c = 0`), the size to `n + 1`, keeps the first
`n` element values, and puts the appended value last. -/
theorem c4_emplaceBack_growth {T : Type} (s : VecState T) (x : T)
    (hfull : s.elems.length = s.cap) :
    ((EmplaceBack s x).1.cap = if s.cap = 0 then 1 else 2 * s.cap) ∧
    (EmplaceBack s x).1.elems.length = s.elems.length + 1 ∧
    (EmplaceBack s x).1.elems.take s.elems.length = s.elems ∧
    (EmplaceBack s x).1.elems.getLast? = some x := by
  have helems := emplaceBack_elems s x
  refine ⟨?_, ?_, ?_, ?_⟩
  · unfold EmplaceBack
    rw [if_pos hfull, hfull]
    show (if s.cap = 0 then 1 else s.cap * 2) = _
    by_cases h0 : s.cap = 0
    · simp [h0]
    · simp [h0, Nat.mul_comm]
  · rw [helems]; simp
  · rw [helems, List.take_left]
  · rw [helems]; simp

/-- Witness for C4 at a concrete full vector. -/
theorem c4_emplaceBack_witness :
    ((EmplaceBack (⟨2, [4, 5]⟩ : VecState Nat) 9).1.cap = 4) ∧
    (EmplaceBack (⟨2, [4, 5]⟩ : VecState Nat) 9).1.elems.take 2 = [4, 5] ∧
    (EmplaceBack (⟨2, [4, 5]⟩ : VecState Nat) 9).1.elems.getLast? = some 9 := by
  have h := c4_emplaceBack_growth (⟨2, [4, 5]⟩ : VecState Nat) 9 (by decide)
  exact ⟨by rw [h.1]; decide, h.2.2.1, h.2.2.2⟩

/-- `Vector::Resize` (vector.h lines 254–270): growing reserves if the new
size exceeds capacity and value-constructs the `new_size - size_` tail
elements; shrinking destroys the trailing `size_ - new_size` elements; equal
sizes change nothing.  `dflt` is the value produced by value-construction of
`T`. -/
def Resize {T : Type} (s : VecState T) (newSize : Nat) (dflt : T) : VecState T :=
  if s.elems.length < newSize then
    let s1 := if s.cap < newSize then Reserve s newSize else s
    ⟨s1.cap, s1.elems ++ List.replicate (newSize - s.elems.length) dflt⟩
  else if newSize < s.elems.length then
    ⟨s.cap, s.elems.take newSize⟩
  else s

/-- `Reserve` never changes the element values (only possibly the capacity). -/
theorem Reserve_elems {T : Type} (s : VecState T) (n : Nat)
    (hinv : s.elems.length ≤ s.cap) :
    (Reserve s n).elems = s.elems := by
  by_cases h : n ≤ s.cap
  · simp [Reserve, h]
  · simp [Reserve, h, elementsMigrationVals_eq s.elems n (by omega)]

/-- C8: `Resize(n)` with `n > size` grows to size `n` preserving the first
`size` values and default-constructing the tail; with `n < size` it shrinks to
the first `n` values; and `Resize(0)` followed by `Resize(5)` yields five
default-constructed values. -/
theorem c8_resize_spec {T : Type} (s : VecState T) (n : Nat) (dflt : T)
    (hinv : s.elems.length ≤ s.cap) :
    (s.elems.length < n →
      (Resize s n dflt).elems =
        s.elems ++ List.replicate (n - s.elems.length) dflt ∧
      (Resize s n dflt).elems.length = n) ∧
    (n < s.elems.length →
      (Resize s n dflt).elems = s.elems.take n ∧
      (Resize s n dflt).elems.length = n) ∧
    (Resize (Resize s 0 dflt) 5 dflt).elems = List.replicate 5 dflt := by
  refine ⟨?_, ?_, ?_⟩
  · intro h
    have helems : (Resize s n dflt).elems =
        s.elems ++ List.replicate (n - s.elems.length) dflt := by
      unfold Resize
      rw [if_pos h]
      by_cases hc : s.cap < n
      · simp only [if_pos hc, Reserve_elems s n hinv]
      · simp only [if_neg hc]
    refine ⟨helems, ?_⟩
    rw [helems]; simp; omega
  · intro h
    have hn : ¬ (s.elems.length < n) := by omega
    have helems : (Resize s n dflt).elems = s.elems.take n := by
      unfold Resize
      rw [if_neg hn, if_pos h]
    refine ⟨helems, ?_⟩
    rw [helems]; simp; omega
  · have h0 : (Resize s 0 dflt).elems = [] := by
      unfold Resize
      rcases Nat.eq_zero_or_pos s.elems.length with hz | hp
      · rw [if_neg (by omega), if_neg (by omega)]
        exact List.length_eq_zero.mp hz
      · rw [if_neg (by omega), if_pos hp]
        simp
    obtain ⟨t, ht⟩ : ∃ t, Resize s 0 dflt = t := ⟨_, rfl⟩
    rw [ht] at h0 ⊢
    have h05 : t.elems.length < 5 := by rw [h0]; simp
    unfold Resize
    rw [if_pos h05]
    by_cases hc : t.cap < 5
    · simp only [if_pos hc]
      rw [Reserve_elems t 5 (by rw [h0]; simp), h0]
      simp
    · simp only [if_neg hc]
      rw [h0]
      simp

/-- Witness for C8 at a concrete state. -/
theorem c8_resize_witness :
    (Resize (⟨3, [7, 8]⟩ : VecState Nat) 4 0).elems = [7, 8, 0, 0] ∧
    (Resize (⟨3, [7, 8]⟩ : VecState Nat) 1 0).elems = [7] ∧
    (Resize (Resize (⟨3, [7, 8]⟩ : VecState Nat) 0 0) 5 0).elems =
      [0, 0, 0, 0, 0] := by
  have h := c8_resize_spec (⟨3, [7, 8]⟩ : VecState Nat) 4 0 (by decide)
  have h1 := c8_resize_spec (⟨3, [7, 8]⟩ : VecState Nat) 1 0 (by decide)
  refine ⟨?_, ?_, ?_⟩
  · rw [(h.1 (by decide)).1]; rfl
  · rw [(h1.2.1 (by decide)).1]; rfl
  · rw [h.2.2]; rfl

/- ### Shifting loops used by Emplace and Erase -/

theorem set_drop_take_of_le {T : Type} (l : List T) (i p k : Nat) (a : T)
    (h : p + k ≤ i) :
    ((l.set i a).drop p).take k = (l.drop p).take k := by
  apply List.ext_getElem
  · simp
  · intro j h1 h2
    have hj : j < k := by rw [List.length_take, List.length_drop] at h1; omega
    rw [List.getElem_take, List.getElem_drop, List.getElem_take, List.getElem_drop,
      List.getElem_set]
    have : ¬ (i = p + j) := by omega
    simp [this]

theorem take_succ_set_self {T : Type} (l : List T) (i : Nat) (a : T)
    (h : i < l.length) :
    (l.take (i + 1)).set i a = l.take i ++ [a] := by
  apply List.ext_getElem
  · simp; omega
  · intro j h1 h2
    have hj : j < i + 1 := by
      rw [List.length_set, List.length_take] at h1; omega
    rw [List.getElem_set, List.getElem_append]
    rcases Nat.lt_or_ge j i with hji | hji
    · have hne : ¬ (i = j) := by omega
      have hjl : j < (l.take i).length := by rw [List.length_take]; omega
      rw [if_neg hne, dif_pos hjl, List.getElem_take, List.getElem_take]
    · have hij : i = j := by omega
      have hjl : ¬ (j < (l.take i).length) := by rw [List.length_take]; omega
      rw [if_pos hij, dif_neg hjl]
      have hz : j - (l.take i).length = 0 := by rw [List.length_take]; omega
      simp [hz]

/-- `std::move_backward(begin()+pos, begin()+(pos+k), begin()+(pos+k+1))`
(the shift-by-one in `Emplace`, line 342): processed from the highest index
down, each element of `[pos, pos+k)` is move-assigned one slot to the right. -/
def moveBackwardShift {T : Type} [Inhabited T] : List T → Nat → Nat → List T
  | buf, _, 0 => buf
  | buf, pos, k + 1 =>
      moveBackwardShift (buf.set (pos + k + 1) (buf.getD (pos + k) default)) pos k

theorem moveBackwardShift_eq {T : Type} [Inhabited T] :
    ∀ (k : Nat) (buf : List T) (pos : Nat), pos + k < buf.length →
      moveBackwardShift buf pos k =
        buf.take (pos + 1) ++ (buf.drop pos).take k ++ buf.drop (pos + k + 1) := by
  intro k
  induction k with
  | zero =>
    intro buf pos h
    show buf = _
    simp [List.take_append_drop]
  | succ k ih =>
    intro buf pos h
    show moveBackwardShift (buf.set (pos + k + 1) (buf.getD (pos + k) default)) pos k = _
    rw [List.getD_eq_getElem buf default (show pos + k < buf.length by omega)]
    rw [ih _ pos (by rw [List.length_set]; omega)]
    rw [set_take_of_le _ _ _ _ (by omega)]
    rw [set_drop_take_of_le _ _ _ _ _ (by omega)]
    rw [set_drop_self _ _ _ (by omega)]
    have hk : k < (buf.drop pos).length := by rw [List.length_drop]; omega
    have hsplit : List.take (k + 1) (List.drop pos buf) =
        List.take k (List.drop pos buf) ++ [(List.drop pos buf).get ⟨k, hk⟩] := by
      rw [List.take_succ]
      rw [List.getElem?_eq_getElem hk]
      simp
    rw [hsplit]
    have hget : (List.drop pos buf).get ⟨k, hk⟩ = buf.get ⟨pos + k, by omega⟩ := by
      simp [List.getElem_drop]
    rw [hget]
    simp [show pos + (k + 1) + 1 = pos + k + 1 + 1 from by omega]

/-- `std::move(begin()+(i+1), begin()+(i+1+k), begin()+i)` (the shift-by-one
in `Erase`, line 353): processed from the lowest index up, each element of
`[i+1, i+1+k)` is move-assigned one slot to the left. -/
def moveLeftShift {T : Type} [Inhabited T] : List T → Nat → Nat → List T
  | buf, _, 0 => buf
  | buf, i, k + 1 => moveLeftShift (buf.set i (buf.getD (i + 1) default)) (i + 1) k

theorem moveLeftShift_eq {T : Type} [Inhabited T] :
    ∀ (k : Nat) (buf : List T) (i : Nat), i + k < buf.length →
      moveLeftShift buf i k =
        buf.take i ++ (buf.drop (i + 1)).take k ++ buf.drop (i + k) := by
  intro k
  induction k with
  | zero =>
    intro buf i h
    show buf = _
    simp [List.take_append_drop]
  | succ k ih =>
    intro buf i h
    show moveLeftShift (buf.set i (buf.getD (i + 1) default)) (i + 1) k = _
    rw [List.getD_eq_getElem buf default (show i + 1 < buf.length by omega)]
    rw [ih _ (i + 1) (by rw [List.length_set]; omega)]
    rw [set_take_succ_self _ _ _ (by omega)]
    rw [set_drop_of_lt _ _ _ _ (by omega)]
    rw [set_drop_of_lt _ _ _ _ (by omega)]
    rw [List.drop_eq_getElem_cons (show i + 1 < buf.length by omega),
      List.take_succ_cons]
    simp [show i + (k + 1) = i + 1 + k from by omega]

/-- Taking all but the last element of `l.drop p` and re-appending the last
element of `l` gives `l.drop p` back. -/
theorem drop_take_sub_one_append_getD {T : Type} [Inhabited T] (l : List T)
    (p : Nat) (hp : p < l.length) :
    (l.drop p).take (l.length - 1 - p) ++ [l.getD (l.length - 1) default] =
      l.drop p := by
  rw [List.getD_eq_getElem l default (show l.length - 1 < l.length by omega)]
  apply List.ext_getElem
  · simp; omega
  · intro j h1 h2
    have hjlen : j < l.length - p := by rw [List.length_drop] at h2; omega
    rw [List.getElem_drop, List.getElem_append]
    by_cases hj : j < ((l.drop p).take (l.length - 1 - p)).length
    · rw [dif_pos hj, List.getElem_take, List.getElem_drop]
    · rw [dif_neg hj]
      rw [List.length_take, List.length_drop] at hj
      have hje : j = l.length - 1 - p := by omega
      have hz : j - ((l.drop p).take (l.length - 1 - p)).length = 0 := by
        rw [List.length_take, List.length_drop]; omega
      have harith : p + j = l.length - 1 := by omega
      simp [hz, harith]

/-- The live values produced by the `Emplace` full-capacity branch
(vector.h lines 320–337): the new element is constructed at slot `pos` of a
fresh region, then the former elements `[0, pos)` and `[pos, size_)` are
relocated around it. -/
theorem emplaceFull_liveValues {T : Type} (elems : List T) (pos : Nat) (x : T)
    (newCap : Nat) (hpos : pos ≤ elems.length)
    (hcap : elems.length + 1 ≤ newCap) :
    (uninitializedMoveN (elems.drop pos)
        (uninitializedMoveN (elems.take pos)
          ((Buf.allocate T newCap).write pos (some x)) 0)
        (pos + 1)).liveValues =
      elems.take pos ++ x :: elems.drop pos := by
  have hb1 : (uninitializedMoveN (elems.take pos)
      ((Buf.allocate T newCap).write pos (some x)) 0).slots =
      (elems.take pos).map some ++
        some x :: List.replicate (newCap - (pos + 1)) none := by
    rw [uninitializedMoveN_slots _ _ 0 (by simp [Buf.allocate, Buf.write]; omega)]
    show ((List.replicate newCap none).set pos (some x)).take 0 ++ _ ++
      ((List.replicate newCap none).set pos (some x)).drop
        (0 + (elems.take pos).length) = _
    have hlt : (elems.take pos).length = pos := by simp; omega
    rw [List.take_zero, List.nil_append, hlt, Nat.zero_add,
      set_drop_self _ _ _ (by simp; omega), List.drop_replicate]
  have hlenb1 : (pos + 1) + (elems.drop pos).length ≤
      (uninitializedMoveN (elems.take pos)
        ((Buf.allocate T newCap).write pos (some x)) 0).slots.length := by
    rw [hb1]; simp; omega
  unfold Buf.liveValues
  rw [uninitializedMoveN_slots _ _ (pos + 1) hlenb1, hb1]
  have hl1 : ((elems.take pos).map some).length = pos := by simp; omega
  have htake : ((elems.take pos).map some ++
      some x :: List.replicate (newCap - (pos + 1)) none).take (pos + 1) =
      (elems.take pos).map some ++ [some x] := by
    rw [show pos + 1 = ((elems.take pos).map some).length + 1 from by rw [hl1],
      List.take_append]
    simp
  have hdrop : ((elems.take pos).map some ++
      some x :: List.replicate (newCap - (pos + 1)) none).drop
        (pos + 1 + (elems.drop pos).length) =
      List.replicate (newCap - (pos + 1) - (elems.drop pos).length) none := by
    rw [show pos + 1 + (elems.drop pos).length =
        ((elems.take pos).map some).length + (1 + (elems.drop pos).length) from by
        rw [hl1]; omega,
      List.drop_append]
    rw [show 1 + (elems.drop pos).length = (elems.drop pos).length + 1 from by omega,
      List.drop_succ_cons, List.drop_replicate]
  rw [htake, hdrop]
  rw [List.filterMap_append, List.filterMap_append, List.filterMap_append,
    filterMap_id_map_some, filterMap_id_map_some, filterMap_id_replicate_none]
  simp

/-- `Vector::Emplace` (vector.h lines 310–347) in the success model, with the
new element's construction producing value `x` and `pos` the index
`std::distance(cbegin(), pos)` (the assertion `begin() <= pos && pos <= end()`
is the hypothesis `pos ≤ size_`).  Three paths: `pos == end()` delegates to
`EmplaceBack`; a full vector allocates `size_ == 0 ? 1 : size_ * 2` slots,
constructs the element at slot `pos`, relocates `[0, pos)` and `[pos, size_)`
around it, destroys the originals and swaps; otherwise a temporary holds the
new value, the last element is move-constructed into the one-past-end slot,
`[pos, size_-1)` is shifted right by `std::move_backward`, and the temporary is
move-assigned into slot `pos`.  Returns the new state and the index of the
returned iterator. -/
def Emplace {T : Type} [Inhabited T] (s : VecState T) (pos : Nat) (x : T) :
    VecState T × Nat :=
  if pos = s.elems.length then
    ((EmplaceBack s x).1, (EmplaceBack s x).1.elems.length - 1)
  else if s.elems.length = s.cap then
    (⟨if s.elems.length = 0 then 1 else s.elems.length * 2,
      (uninitializedMoveN (s.elems.drop pos)
        (uninitializedMoveN (s.elems.take pos)
          ((Buf.allocate T
            (if s.elems.length = 0 then 1 else s.elems.length * 2)).write
              pos (some x)) 0)
        (pos + 1)).liveValues⟩,
     pos)
  else
    (⟨s.cap,
      (moveBackwardShift (s.elems ++ [s.elems.getD (s.elems.length - 1) default])
        pos (s.elems.length - 1 - pos)).set pos x⟩,
     pos)

/-- C5: `Insert`/`Emplace` at index `pos ≤ size` yields the original sequence
with `x` inserted at `pos`, size `n + 1`, and returns (an iterator to) index
`pos`; inserting at `pos = size` is the same as appending. -/
theorem c5_emplace_insert {T : Type} [Inhabited T] (s : VecState T) (pos : Nat)
    (x : T) (hpos : pos ≤ s.elems.length) :
    (Emplace s pos x).1.elems = s.elems.take pos ++ x :: s.elems.drop pos ∧
    (Emplace s pos x).1.elems.length = s.elems.length + 1 ∧
    (Emplace s pos x).2 = pos ∧
    (Emplace s s.elems.length x).1 = (EmplaceBack s x).1 := by
  have hmain : (Emplace s pos x).1.elems =
      s.elems.take pos ++ x :: s.elems.drop pos := by
    unfold Emplace
    by_cases hend : pos = s.elems.length
    · rw [if_pos hend]
      show (EmplaceBack s x).1.elems = _
      rw [emplaceBack_elems, hend, List.take_length, List.drop_length]
    · rw [if_neg hend]
      have hlt : pos < s.elems.length := by omega
      by_cases hfull : s.elems.length = s.cap
      · rw [if_pos hfull]
        show (uninitializedMoveN _ _ _).liveValues = _
        refine emplaceFull_liveValues s.elems pos x _ hpos ?_
        rw [if_neg (show ¬ (s.elems.length = 0) from by omega)]
        omega
      · rw [if_neg hfull]
        show (moveBackwardShift
            (s.elems ++ [s.elems.getD (s.elems.length - 1) default])
            pos (s.elems.length - 1 - pos)).set pos x = _
        rw [moveBackwardShift_eq _ _ _ (by rw [List.length_append]; simp; omega)]
        rw [List.take_append_of_le_length (show pos + 1 ≤ s.elems.length from by omega)]
        rw [List.drop_append_of_le_length (show pos ≤ s.elems.length from by omega)]
        rw [List.take_append_of_le_length
          (show s.elems.length - 1 - pos ≤ (s.elems.drop pos).length from by
            simp; omega)]
        rw [show pos + (s.elems.length - 1 - pos) + 1 = s.elems.length from by omega]
        rw [List.drop_left' rfl]
        rw [List.set_append_left _ _ (by simp; omega)]
        rw [List.set_append_left _ _ (by simp; omega)]
        rw [take_succ_set_self _ _ _ hlt, List.append_assoc,
          drop_take_sub_one_append_getD s.elems pos hlt]
        simp
  refine ⟨hmain, ?_, ?_, ?_⟩
  · rw [hmain]; simp; omega
  · unfold Emplace
    by_cases hend : pos = s.elems.length
    · rw [if_pos hend]
      show (EmplaceBack s x).1.elems.length - 1 = pos
      rw [emplaceBack_elems]
      simp [hend]
    · rw [if_neg hend]
      by_cases hfull : s.elems.length = s.cap
      · rw [if_pos hfull]
      · rw [if_neg hfull]
  · unfold Emplace
    rw [if_pos rfl]

/-- Witness for C5 at concrete states. -/
theorem c5_emplace_witness :
    (Emplace (⟨4, [1, 2, 3]⟩ : VecState Nat) 1 9).1.elems = [1, 9, 2, 3] ∧
    (Emplace (⟨4, [1, 2, 3]⟩ : VecState Nat) 1 9).2 = 1 ∧
    (Emplace (⟨3, [1, 2, 3]⟩ : VecState Nat) 3 9).1 =
      (EmplaceBack (⟨3, [1, 2, 3]⟩ : VecState Nat) 9).1 := by
  have h := c5_emplace_insert (⟨4, [1, 2, 3]⟩ : VecState Nat) 1 9 (by decide)
  have h2 := c5_emplace_insert (⟨3, [1, 2, 3]⟩ : VecState Nat) 3 9 (by decide)
  exact ⟨by rw [h.1]; rfl, h.2.2.1, h2.2.2.2⟩

/-- `Vector::Erase` (vector.h lines 349–357): shift `[pos+1, size_)` one slot
to the left by move-assignment, destroy the vacated last slot, decrement
`size_`.  Returns the new state and the index of the returned iterator. -/
def Erase {T : Type} [Inhabited T] (s : VecState T) (pos : Nat) :
    VecState T × Nat :=
  (⟨s.cap,
    (moveLeftShift s.elems pos (s.elems.length - pos - 1)).take
      (s.elems.length - 1)⟩,
   pos)

/-- `Vector::PopBack` (vector.h lines 358–363): destroy the last element and
decrement `size_`. -/
def PopBack {T : Type} (s : VecState T) : VecState T :=
  ⟨s.cap, s.elems.take (s.elems.length - 1)⟩

/-- C6: `Erase` at index `pos < size` removes exactly the element at `pos`,
shrinking the size by one and leaving the capacity alone (the model is a total
function: no failure), and erasing the last element agrees with `PopBack`. -/
theorem c6_erase_spec {T : Type} [Inhabited T] (s : VecState T) (pos : Nat)
    (hpos : pos < s.elems.length) :
    (Erase s pos).1.elems = s.elems.take pos ++ s.elems.drop (pos + 1) ∧
    (Erase s pos).1.elems.length = s.elems.length - 1 ∧
    (Erase s pos).1.cap = s.cap ∧
    (Erase s (s.elems.length - 1)).1 = PopBack s := by
  have hmain : (Erase s pos).1.elems =
      s.elems.take pos ++ s.elems.drop (pos + 1) := by
    show (moveLeftShift s.elems pos (s.elems.length - pos - 1)).take
      (s.elems.length - 1) = _
    rw [moveLeftShift_eq _ _ _ (by omega)]
    rw [List.take_of_length_le
      (show (s.elems.drop (pos + 1)).length ≤ s.elems.length - pos - 1 from by
        simp; omega)]
    rw [show pos + (s.elems.length - pos - 1) = s.elems.length - 1 from by omega]
    exact List.take_left' (by simp; omega)
  refine ⟨hmain, ?_, rfl, ?_⟩
  · rw [hmain]; simp; omega
  · show (⟨s.cap,
      (moveLeftShift s.elems (s.elems.length - 1)
        (s.elems.length - (s.elems.length - 1) - 1)).take
          (s.elems.length - 1)⟩ : VecState T) = PopBack s
    rw [show s.elems.length - (s.elems.length - 1) - 1 = 0 from by omega]
    rfl

/-- Witness for C6 at a concrete state. -/
theorem c6_erase_witness :
    (Erase (⟨4, [1, 2, 3, 4]⟩ : VecState Nat) 1).1.elems = [1, 3, 4] ∧
    (Erase (⟨4, [1, 2, 3, 4]⟩ : VecState Nat) 3).1 =
      PopBack (⟨4, [1, 2, 3, 4]⟩ : VecState Nat) := by
  have h := c6_erase_spec (⟨4, [1, 2, 3, 4]⟩ : VecState Nat) 1 (by decide)
  exact ⟨by rw [h.1]; rfl, h.2.2.2⟩

/- ### Copy assignment (instrumented with element lifecycle events) -/

/-- An element-lifecycle action performed by a `Vector` operation:
copy-assignment of value `v` into slot `i`, copy-construction of value `v`
into slot `i`, or destruction of the object in slot `i`. -/
inductive VEvent (T : Type) where
  | assign (i : Nat) (v : T)
  | construct (i : Nat) (v : T)
  | destroy (i : Nat)
  deriving DecidableEq

/-- The ascending assignment loop `for (; i < k; ++i) data_[i] = rhs[i];` of
`operator=(const Vector&)` (vector.h lines 184–187 and 196–199). -/
def assignLoopGo {T : Type} [Inhabited T] (src : List T) :
    List T → Nat → Nat → List T
  | dst, _, 0 => dst
  | dst, i, k + 1 => assignLoopGo src (dst.set i (src.getD i default)) (i + 1) k

/-- Assignment of the first `k` values of `src` over the front of `dst`. -/
def assignLoop {T : Type} [Inhabited T] (dst src : List T) (k : Nat) : List T :=
  assignLoopGo src dst 0 k

theorem assignLoopGo_eq {T : Type} [Inhabited T] (src : List T) :
    ∀ (k : Nat) (dst : List T) (i : Nat),
      i + k ≤ dst.length → i + k ≤ src.length →
      assignLoopGo src dst i k =
        dst.take i ++ (src.drop i).take k ++ dst.drop (i + k) := by
  intro k
  induction k with
  | zero =>
    intro dst i h1 h2
    show dst = _
    simp [List.take_append_drop]
  | succ k ih =>
    intro dst i h1 h2
    show assignLoopGo src (dst.set i (src.getD i default)) (i + 1) k = _
    rw [List.getD_eq_getElem src default (show i < src.length by omega)]
    rw [ih _ (i + 1) (by rw [List.length_set]; omega) (by omega)]
    rw [set_take_succ_self _ _ _ (by omega)]
    rw [set_drop_of_lt _ _ _ _ (by omega)]
    rw [List.drop_eq_getElem_cons (show i < src.length by omega), List.take_succ_cons]
    simp [show i + (k + 1) = i + 1 + k from by omega]

theorem assignLoop_eq {T : Type} [Inhabited T] (dst src : List T) (k : Nat)
    (h1 : k ≤ dst.length) (h2 : k ≤ src.length) :
    assignLoop dst src k = src.take k ++ dst.drop k := by
  unfold assignLoop
  rw [assignLoopGo_eq src k dst 0 (by omega) (by omega)]
  simp

/-- `Vector::operator=(const Vector&)` (vector.h lines 171–207), instrumented
with the element lifecycle events it performs, in program order.  `same`
models the aliasing test `this == &rhs`.  When the source does not fit the
current capacity, a copy of `rhs` is constructed and swapped in, and the swap
victim's destructor destroys the old elements; otherwise the overlapping
front is copy-assigned and the length difference is destroyed
(shrinking) or copy-constructed (growing) in place.  The right-hand operand
is never touched. -/
def copyAssignI {T : Type} [Inhabited T] (self rhs : VecState T)
    (same : Bool) : VecState T × List (VEvent T) :=
  if same then (self, [])
  else if rhs.elems.length > self.cap then
    (⟨rhs.elems.length, rhs.elems⟩,
      (List.range rhs.elems.length).map
        (fun i => VEvent.construct i (rhs.elems.getD i default)) ++
      (List.range self.elems.length).map VEvent.destroy)
  else if self.elems.length > rhs.elems.length then
    (⟨self.cap,
      (assignLoop self.elems rhs.elems rhs.elems.length).take rhs.elems.length⟩,
      (List.range rhs.elems.length).map
        (fun i => VEvent.assign i (rhs.elems.getD i default)) ++
      (List.range (self.elems.length - rhs.elems.length)).map
        (fun j => VEvent.destroy (rhs.elems.length + j)))
  else
    (⟨self.cap,
      assignLoop self.elems rhs.elems self.elems.length ++
        rhs.elems.drop self.elems.length⟩,
      (List.range self.elems.length).map
        (fun i => VEvent.assign i (rhs.elems.getD i default)) ++
      (List.range (rhs.elems.length - self.elems.length)).map
        (fun j => VEvent.construct (self.elems.length + j)
          (rhs.elems.getD (self.elems.length + j) default)))

/-- C7: copy-assignment between distinct vectors copies the source's size and
element values into the target (the source operand is a value the operation
never modifies); the target's capacity is reused when the source fits it and
becomes exactly the source's size otherwise. -/
theorem c7_copy_assign_spec {T : Type} [Inhabited T] (self rhs : VecState T) :
    (copyAssignI self rhs false).1.elems = rhs.elems ∧
    (copyAssignI self rhs false).1.elems.length = rhs.elems.length ∧
    (rhs.elems.length ≤ self.cap →
      (copyAssignI self rhs false).1.cap = self.cap) ∧
    (self.cap < rhs.elems.length →
      (copyAssignI self rhs false).1.cap = rhs.elems.length) := by
  have hmain : (copyAssignI self rhs false).1.elems = rhs.elems := by
    unfold copyAssignI
    rw [if_neg (by simp)]
    by_cases hbig : rhs.elems.length > self.cap
    · rw [if_pos hbig]
    · rw [if_neg hbig]
      by_cases hshrink : self.elems.length > rhs.elems.length
      · rw [if_pos hshrink]
        show (assignLoop self.elems rhs.elems rhs.elems.length).take
          rhs.elems.length = _
        rw [assignLoop_eq _ _ _ (by omega) (by omega)]
        rw [List.take_left' (by simp)]
        exact List.take_length rhs.elems
      · rw [if_neg hshrink]
        show assignLoop self.elems rhs.elems self.elems.length ++
          rhs.elems.drop self.elems.length = _
        rw [assignLoop_eq _ _ _ (by omega) (by omega)]
        rw [List.drop_length, List.append_nil, List.take_append_drop]
  refine ⟨hmain, by rw [hmain], ?_, ?_⟩
  · intro hfit
    unfold copyAssignI
    rw [if_neg (by simp), if_neg (by omega)]
    by_cases hshrink : self.elems.length > rhs.elems.length
    · rw [if_pos hshrink]
    · rw [if_neg hshrink]
  · intro hbig
    unfold copyAssignI
    rw [if_neg (by simp), if_pos (by omega)]

/-- Witness for C7 at concrete states (one storage-reuse case, one
reallocation case). -/
theorem c7_copy_assign_witness :
    (copyAssignI (⟨2, [1]⟩ : VecState Nat) ⟨5, [7, 8]⟩ false).1.elems = [7, 8] ∧
    (copyAssignI (⟨2, [1]⟩ : VecState Nat) ⟨5, [7, 8]⟩ false).1.cap = 2 ∧
    (copyAssignI (⟨1, [1]⟩ : VecState Nat) ⟨5, [7, 8]⟩ false).1.cap = 2 := by
  have h1 := c7_copy_assign_spec (⟨2, [1]⟩ : VecState Nat) ⟨5, [7, 8]⟩
  have h2 := c7_copy_assign_spec (⟨1, [1]⟩ : VecState Nat) ⟨5, [7, 8]⟩
  exact ⟨h1.1, h1.2.2.1 (by decide), h2.2.2.2 (by decide)⟩

/-- C10: self copy-assignment (the aliasing test `this == &rhs` succeeds)
leaves the vector completely unchanged and performs no element assignment,
construction, or destruction. -/
theorem c10_self_assign_noop {T : Type} [Inhabited T] (v : VecState T) :
    copyAssignI v v true = (v, []) := rfl

/-- Witness for C10 at a concrete state. -/
theorem c10_self_assign_witness :
    copyAssignI (⟨3, [4, 5]⟩ : VecState Nat) ⟨3, [4, 5]⟩ true =
      ((⟨3, [4, 5]⟩ : VecState Nat), []) :=
  c10_self_assign_noop (⟨3, [4, 5]⟩ : VecState Nat)

/- ### Fallible copy relocation and the exception paths -/

/-- The element-by-element loop of `std::uninitialized_copy_n(src, n,
dst_base + firstIdx)` with a fallible copy constructor `copyc`: values are
copy-constructed into consecutive slots starting at `firstIdx`; if a copy
throws, the algorithm destroys the objects it itself constructed (slots
`[firstIdx, i)`) and propagates the error. -/
def uninitializedCopyGo {T : Type} (copyc : T → Except Unit T) (firstIdx : Nat) :
    Buf T → Nat → List T → Buf T × Option Unit
  | dst, _, [] => (dst, none)
  | dst, i, x :: xs =>
    match copyc x with
    | Except.error _ => (dst.destroyN firstIdx (i - firstIdx), some ())
    | Except.ok y =>
        uninitializedCopyGo copyc firstIdx (dst.write i (some y)) (i + 1) xs

/-- `std::uninitialized_copy_n(src, src.length, dst_base + start)` with a
fallible copy constructor: the final destination state and the error, if one
was thrown. -/
def uninitializedCopyN {T : Type} (copyc : T → Except Unit T) (src : List T)
    (dst : Buf T) (start : Nat) : Buf T × Option Unit :=
  uninitializedCopyGo copyc start dst start src

/-- The compile-time relocation condition of `ElementsMigration` (vector.h
line 375): `std::is_nothrow_move_constructible_v<T> ||
!std::is_copy_constructible_v<T>`; `true` selects
`std::uninitialized_move_n`, `false` selects `std::uninitialized_copy_n`.
Used by `Reserve` and `EmplaceBack`, which both relocate through
`ElementsMigration`. -/
def migrationUsesMove (nothrowMoveConstructible copyConstructible : Bool) : Bool :=
  nothrowMoveConstructible || !copyConstructible

/-- The compile-time relocation condition of the `Emplace` full-capacity
branch (vector.h line 324), written in the source as its own `if constexpr`
over the same two type traits. -/
def emplaceUsesMove (nothrowMoveConstructible copyConstructible : Bool) : Bool :=
  nothrowMoveConstructible || !copyConstructible

/-- With a copy constructor that always succeeds and preserves the value, the
copy loop fills the destination exactly as the move loop does. -/
theorem uninitializedCopyGo_ok {T : Type} (copyc : T → Except Unit T)
    (hc : ∀ t, copyc t = Except.ok t) (firstIdx : Nat) :
    ∀ (src : List T) (dst : Buf T) (i : Nat),
      uninitializedCopyGo copyc firstIdx dst i src =
        (uninitializedMoveN src dst i, none) := by
  intro src
  induction src with
  | nil => intro dst i; rfl
  | cons x xs ih =>
    intro dst i
    rw [show uninitializedCopyGo copyc firstIdx dst i (x :: xs) =
      (match copyc x with
       | Except.error _ => (dst.destroyN firstIdx (i - firstIdx), some ())
       | Except.ok y =>
           uninitializedCopyGo copyc firstIdx (dst.write i (some y)) (i + 1) xs)
      from rfl, hc x]
    exact ih _ _

/-- C3: all reallocation paths choose their relocation strategy by the same
compile-time condition — `Reserve` and `EmplaceBack` through
`ElementsMigration`'s branch, `Emplace` through its own branch — namely move
exactly when the move constructor cannot throw or no copy constructor exists;
and for a value-faithful copy constructor the copy strategy fills the new
buffer exactly as the move strategy, so on success both yield the same final
element sequence. -/
theorem c3_relocation_strategy_uniform {T : Type} (copyc : T → Except Unit T)
    (hc : ∀ t, copyc t = Except.ok t) :
    (∀ nm cc, migrationUsesMove nm cc = emplaceUsesMove nm cc) ∧
    (∀ nm cc, migrationUsesMove nm cc = (nm || !cc)) ∧
    (∀ (src : List T) (dst : Buf T) (start : Nat),
      uninitializedCopyN copyc src dst start =
        (uninitializedMoveN src dst start, none)) := by
  refine ⟨fun nm cc => rfl, fun nm cc => rfl, ?_⟩
  intro src dst start
  exact uninitializedCopyGo_ok copyc hc start src dst start

/-- Witness for C3 with the identity-like copy constructor at a concrete
relocation. -/
theorem c3_relocation_witness :
    uninitializedCopyN (fun t => Except.ok t) [3, 4] (Buf.allocate Nat 4) 0 =
      (uninitializedMoveN [3, 4] (Buf.allocate Nat 4) 0, none) ∧
    migrationUsesMove false true = emplaceUsesMove false true := by
  have h := c3_relocation_strategy_uniform (T := Nat) (fun t => Except.ok t)
    (fun t => rfl)
  exact ⟨h.2.2 [3, 4] (Buf.allocate Nat 4) 0, h.1 false true⟩

/-- `Vector::EmplaceBack` (vector.h lines 282–298), grow path
(`size_ == Capacity()`), for an element type relocated by copying (throwing
move constructor, copy constructor present), with the in-place construction
`new (new_data + size_) T(args...)` succeeding with value `x` and the element
copy constructor modelled by `copyc`.  Returns the resulting vector state,
the propagated error (if any), and the slot contents of every `RawMemory`
region deallocated during the call.  If a copy throws, the error propagates
out of `ElementsMigration` before its `destroy_n`/`Swap` run, so
`data_`/`size_` are unchanged and the local `new_data` — still holding the
element emplaced at slot `size_` — is deallocated by its destructor during
unwinding.  On success, `destroy_n` empties the old region, the buffers are
swapped, and the old (now empty) region is deallocated at end of scope. -/
def emplaceBackGrowCopy {T : Type} (copyc : T → Except Unit T)
    (s : VecState T) (x : T) : VecState T × Option Unit × List (Buf T) :=
  match uninitializedCopyN copyc s.elems
      ((Buf.allocate T (if s.elems.length = 0 then 1 else s.elems.length * 2)).write
        s.elems.length (some x)) 0 with
  | (nd, some e) => (s, some e, [nd])
  | (nd, none) =>
      (⟨if s.elems.length = 0 then 1 else s.elems.length * 2, nd.liveValues⟩,
       none,
       [⟨s.cap, List.replicate s.cap none⟩])

/-- C1 (refuting evidence): on the `EmplaceBack` grow path with a copy
constructor that throws on the first copy, the error is propagated and the
original state is untouched, but the region deallocated during unwinding
still holds one live, never-destroyed object — the element that was emplaced
at slot `size_` — so not every element constructed on the new side is
destroyed before the failure is re-raised. -/
theorem c1_emplaceBack_throw_leaks_emplaced_element :
    emplaceBackGrowCopy (fun _ => Except.error ()) (⟨1, [7]⟩ : VecState Nat) 5 =
      ((⟨1, [7]⟩ : VecState Nat), some (),
        [(⟨2, [none, some 5]⟩ : Buf Nat)]) ∧
    Buf.liveCount (⟨2, [none, some 5]⟩ : Buf Nat) = 1 :=
  ⟨rfl, rfl⟩

/-- The `RawMemory` region of a vector state: the first `size_` slots hold
the live elements, the remaining `capacity - size_` slots are raw. -/
def bufOf {T : Type} (s : VecState T) : Buf T :=
  ⟨s.cap, s.elems.map some ++ List.replicate (s.cap - s.elems.length) none⟩

/-- `RawMemory::operator=(RawMemory&&)` (vector.h lines 32–37): a temporary is
move-constructed from `rhs` (leaving `rhs` with a null region and capacity 0)
and swapped with `*this`; the temporary's destructor then deallocates the
region it received from the swap — `*this`'s former region — without invoking
any element destructor.  Returns the new `*this`, the new `rhs`, and the
regions deallocated. -/
def rawMemoryMoveAssign {T : Type} (self rhs : Buf T) :
    Buf T × Buf T × List (Buf T) :=
  (rhs, ⟨0, []⟩, [self])

/-- `Vector::operator=(Vector&&)` (vector.h lines 209–215):
`data_ = std::move(rhs.data_); size_ = rhs.size_; rhs.size_ = 0;` — no
element of `*this` is destroyed first.  Returns the new `*this`, the emptied
`rhs`, and the regions deallocated during the assignment. -/
def vectorMoveAssign {T : Type} (self rhs : VecState T) :
    VecState T × VecState T × List (Buf T) :=
  ((⟨(rawMemoryMoveAssign (bufOf self) (bufOf rhs)).1.cap,
     (rawMemoryMoveAssign (bufOf self) (bufOf rhs)).1.liveValues⟩ : VecState T),
   ⟨(rawMemoryMoveAssign (bufOf self) (bufOf rhs)).2.1.cap, []⟩,
   (rawMemoryMoveAssign (bufOf self) (bufOf rhs)).2.2)

/-- C2 (refuting evidence): move-assignment deallocates the target's former
region while it still holds the target's live elements, which are never
destroyed: with a target of size 2 the deallocated region still holds 2 live
objects, so a buffer is released before its live elements were destroyed. -/
theorem c2_move_assign_deallocates_live_buffer :
    vectorMoveAssign (⟨2, [10, 20]⟩ : VecState Nat) ⟨1, [30]⟩ =
      ((⟨1, [30]⟩ : VecState Nat), (⟨0, []⟩ : VecState Nat),
        [(⟨2, [some 10, some 20]⟩ : Buf Nat)]) ∧
    Buf.liveCount (⟨2, [some 10, some 20]⟩ : Buf Nat) = 2 :=
  ⟨rfl, rfl⟩

end AdvVector
